import Mathlib

/-!
Shallow embedding of the CSS-like parser in `src/parse.rs` of painter-rs.

The Rust parser is a character-driven state machine: a stack of
`CssContext` values, a shared character buffer, and in-progress
accumulators (`root`, `ruleset`, `rule`).  Every Rust item is translated
one-to-one below; comments cite the Rust lines.

Representation choices:
* The Rust `Vec<CssContext>` stack pushes and pops at the END of the
  vector (`Vec::push` / `Vec::pop`, `last()` is the top).  Here the
  stack is a `List CssContext` with the TOP AT THE HEAD, the standard
  functional stack; `push` is cons, `pop` is tail, `last()` is `head?`.
* `CssParser::parse_char` recurses on the `EndKeepChar` command
  (src/parse.rs:296).  In Lean the recursion is paid for with explicit
  fuel; `parse_char` supplies `stack.length + 1` fuel, which the
  theorems below show is never exhausted on reachable states.
* The Rust `panic!` arm (src/parse.rs:277, hit exactly when the context
  is `CssContext::None`, i.e. when the stack is empty) is modelled by
  returning `Option.none`; fuel exhaustion also gives `Option.none`.
* The zero-field marker structs `CssSelector`, `CssKey`, `CssValue`,
  `CssString` (and the parser fields holding them) carry no data and
  are represented only by their namespaces of functions.
-/

/-- `enum CssContext` (src/parse.rs:344-353). -/
inductive CssContext
  | Root
  | Selector
  | RuleSet
  | Key
  | Value
  | String
  | None
  deriving DecidableEq, Repr

/-- `enum CssCommand` (src/parse.rs:336-342). -/
inductive CssCommand
  | Begin
  | Append
  | End
  | EndKeepChar
  | None
  deriving DecidableEq, Repr

/-- `struct CssTestResult` (src/parse.rs:331-334). -/
structure CssTestResult where
  command : CssCommand
  context : CssContext
  deriving DecidableEq, Repr

/-- `struct CssRule` (src/parse.rs:121-125). -/
structure CssRule where
  key : String
  value : String
  deriving DecidableEq, Repr

/-- `struct CssRuleSet` (src/parse.rs:92-96). -/
structure CssRuleSet where
  selectors : List String
  rules : List CssRule
  deriving DecidableEq, Repr

/-- `struct CssRoot` (src/parse.rs:34-37): the document accumulator. -/
structure CssRoot where
  rule_sets : List CssRuleSet
  deriving DecidableEq, Repr

/-- `struct CssParser` (src/parse.rs:211-223), dropping the zero-field
marker structs (`selector`, `key`, `value`, `string` fields). -/
structure CssParser where
  stack : List CssContext
  char_buffer : List Char
  current_char : Char
  root : CssRoot
  ruleset : CssRuleSet
  rule : CssRule
  deriving DecidableEq, Repr

/-- The double-quote character `"` (written via its code point to keep
the embedding free of quote-character literals). -/
def quoteD : Char := Char.ofNat 34

/-- The single-quote character. -/
def quoteS : Char := Char.ofNat 39

/-- The opening curly brace character. -/
def lbrace : Char := Char.ofNat 123

/-- The closing curly brace character. -/
def rbrace : Char := Char.ofNat 125

/-- Rust `char::is_whitespace`: the Unicode `White_Space` property,
used by `str::trim` inside `flush_char_buffer` (src/parse.rs:256). -/
def rustIsWhitespace (c : Char) : Bool :=
  let n := c.toNat
  (9 ≤ n && n ≤ 13) || n = 32 || n = 133 || n = 160 || n = 0x1680 ||
    (0x2000 ≤ n && n ≤ 0x200A) || n = 0x2028 || n = 0x2029 ||
    n = 0x202F || n = 0x205F || n = 0x3000

/-- Rust `str::trim` on a character list: drop Unicode whitespace from
both ends. -/
def trimChars (cs : List Char) : List Char :=
  ((cs.dropWhile rustIsWhitespace).reverse.dropWhile rustIsWhitespace).reverse

/-- `CssRoot::new` (src/parse.rs:39-43). -/
def CssRoot.new : CssRoot := { rule_sets := [] }

/-- `CssRuleSet::new` (src/parse.rs:97-100). -/
def CssRuleSet.new : CssRuleSet := { selectors := [], rules := [] }

/-- `CssRule::new` (src/parse.rs:126-130). -/
def CssRule.new : CssRule := { key := "", value := "" }

/-- `CssParser::push_context` (src/parse.rs:245-247). -/
def CssParser.push_context (st : CssParser) (context : CssContext) : CssParser :=
  { st with stack := context :: st.stack }

/-- `CssParser::pop_context` (src/parse.rs:249-251); `Vec::pop` on an
empty vector is a no-op, as is `List.tail` on `[]`. -/
def CssParser.pop_context (st : CssParser) : CssParser :=
  { st with stack := st.stack.tail }

/-- `CssParser::flush_char_buffer` (src/parse.rs:253-257): collect the
buffer, clear it, and return the trimmed string. -/
def CssParser.flush_char_buffer (st : CssParser) : CssParser × String :=
  ({ st with char_buffer := [] }, List.asString (trimChars st.char_buffer))

/-- `CssParser::push_char` (src/parse.rs:259-261). -/
def CssParser.push_char (st : CssParser) (c : Char) : CssParser :=
  { st with char_buffer := st.char_buffer ++ [c] }

/-- `CssRoot::test` (src/parse.rs:46-50): any character begins a
Selector. -/
def CssRoot.test (_css : Char) : CssTestResult :=
  { context := CssContext.Selector, command := CssCommand.Begin }

/-- `CssSelector::test` (src/parse.rs:65-72). -/
def CssSelector.test (css : Char) : CssTestResult :=
  if css = lbrace then { context := CssContext.None, command := CssCommand.End }
  else if css = ',' then { context := CssContext.Selector, command := CssCommand.Append }
  else { context := CssContext.Selector, command := CssCommand.None }

/-- `CssRuleSet::test` (src/parse.rs:103-112). -/
def CssRuleSet.test (css : Char) : CssTestResult :=
  if css = ' ' ∨ css = '\n' ∨ css = '\r' ∨ css = '\t' then
    { context := CssContext.RuleSet, command := CssCommand.None }
  else if css = rbrace then { context := CssContext.None, command := CssCommand.End }
  else { context := CssContext.Key, command := CssCommand.Begin }

/-- `CssKey::test` (src/parse.rs:140-145). -/
def CssKey.test (css : Char) : CssTestResult :=
  if css = ':' then { context := CssContext.None, command := CssCommand.End }
  else { context := CssContext.Key, command := CssCommand.None }

/-- `CssValue::test` (src/parse.rs:166-174). -/
def CssValue.test (css : Char) : CssTestResult :=
  if css = quoteD then { context := CssContext.String, command := CssCommand.Begin }
  else if css = quoteS then { context := CssContext.String, command := CssCommand.Begin }
  else if css = ';' then { context := CssContext.None, command := CssCommand.End }
  else if css = rbrace then { context := CssContext.None, command := CssCommand.EndKeepChar }
  else { context := CssContext.Value, command := CssCommand.None }

/-- `CssString::test` (src/parse.rs:197-203): EITHER quote character
ends the string context. -/
def CssString.test (css : Char) : CssTestResult :=
  if css = quoteD ∨ css = quoteS then
    { context := CssContext.None, command := CssCommand.End }
  else { context := CssContext.String, command := CssCommand.None }

/-- `CssSelector::begin` (src/parse.rs:74-77): append the triggering
character to the buffer.  The engine also dispatches `Key` and
`String` begins here (src/parse.rs:311-313). -/
def CssSelector.begin (state : CssParser) : CssParser :=
  state.push_char state.current_char

/-- `CssSelector::end` (src/parse.rs:79-84); renamed `onEnd` because
`end` is a Lean keyword. -/
def CssSelector.onEnd (state : CssParser) : CssParser :=
  let fl := state.flush_char_buffer
  let st1 := { fl.1 with
    ruleset := { fl.1.ruleset with selectors := fl.1.ruleset.selectors ++ [fl.2] } }
  st1.push_context CssContext.RuleSet

/-- `CssSelector::append` (src/parse.rs:86-89). -/
def CssSelector.append (state : CssParser) : CssParser :=
  let fl := state.flush_char_buffer
  { fl.1 with
    ruleset := { fl.1.ruleset with selectors := fl.1.ruleset.selectors ++ [fl.2] } }

/-- `CssRuleSet::end` (src/parse.rs:114-118): move the in-progress rule
set into the document and reset it. -/
def CssRuleSet.onEnd (state : CssParser) : CssParser :=
  { state with
    root := { rule_sets := state.root.rule_sets ++ [state.ruleset] },
    ruleset := CssRuleSet.new }

/-- `CssKey::end` (src/parse.rs:152-155): flush the buffer into the
rule key and push the Value context. -/
def CssKey.onEnd (state : CssParser) : CssParser :=
  let fl := state.flush_char_buffer
  CssParser.push_context { fl.1 with rule := { fl.1.rule with key := fl.2 } }
    CssContext.Value

/-- `CssValue::end` (src/parse.rs:181-186): flush the buffer into the
rule value, move the rule into the rule set, reset the rule. -/
def CssValue.onEnd (state : CssParser) : CssParser :=
  let fl := state.flush_char_buffer
  let st1 := { fl.1 with rule := { fl.1.rule with value := fl.2 } }
  { st1 with
    ruleset := { st1.ruleset with rules := st1.ruleset.rules ++ [st1.rule] },
    rule := CssRule.new }

/-- `CssString::end` (src/parse.rs:205-208): the terminating quote
character is pushed back into the buffer. -/
def CssString.onEnd (state : CssParser) : CssParser :=
  state.push_char state.current_char

/-- The `let current_context = match self.stack.last() {...}`
computation (src/parse.rs:265-268): an empty stack maps to
`CssContext::None`. -/
def headContext : List CssContext → CssContext
  | [] => CssContext.None
  | x :: _ => x

/-- The `let test_result = match current_context {...}` block of
`CssParser::parse_char` (src/parse.rs:270-278); the `panic!` arm for
`CssContext::None` is modelled as `Option.none`. -/
def contextTest : CssContext → Char → Option CssTestResult
  | CssContext.Root, c => Option.some (CssRoot.test c)
  | CssContext.Selector, c => Option.some (CssSelector.test c)
  | CssContext.RuleSet, c => Option.some (CssRuleSet.test c)
  | CssContext.Key, c => Option.some (CssKey.test c)
  | CssContext.Value, c => Option.some (CssValue.test c)
  | CssContext.String, c => Option.some (CssString.test c)
  | CssContext.None, _ => Option.none

/-- The `match current_context {...}` dispatch inside the
`End | EndKeepChar` arm (src/parse.rs:286-293), applied after
`pop_context`. -/
def runEndDispatch (current_context : CssContext) (st : CssParser) : CssParser :=
  match current_context with
  | CssContext.Selector => CssSelector.onEnd st
  | CssContext.Key => CssKey.onEnd st
  | CssContext.Value => CssValue.onEnd st
  | CssContext.RuleSet => CssRuleSet.onEnd st
  | CssContext.String => CssString.onEnd st
  | _ => st

/-- The `match current_context {...}` dispatch inside the `Append` arm
(src/parse.rs:302-305). -/
def appendDispatch (current_context : CssContext) (st : CssParser) : CssParser :=
  match current_context with
  | CssContext.Selector => CssSelector.append st
  | _ => st

/-- The `match next_context {...}` dispatch inside the `Begin` arm
(src/parse.rs:310-315); the Rust code calls `CssSelector::begin` for
all three of `Selector`, `Key`, `String`. -/
def beginDispatch (next_context : CssContext) (st : CssParser) : CssParser :=
  match next_context with
  | CssContext.Selector => CssSelector.begin st
  | CssContext.Key => CssSelector.begin st
  | CssContext.String => CssSelector.begin st
  | _ => st

/-- `CssParser::parse_char` (src/parse.rs:263-319) with explicit fuel
for the `EndKeepChar` recursion (src/parse.rs:296).  `Option.none`
models the Rust `panic!` on an empty stack, or fuel exhaustion (shown
unreachable on reachable states below). -/
def CssParser.parse_char_fuel : Nat → CssParser → Option CssParser
  | 0, _ => Option.none
  | fuel + 1, st =>
    let char := st.current_char
    let current_context := headContext st.stack
    match contextTest current_context char with
    | Option.none => Option.none
    | Option.some test_result =>
      match test_result.command with
      | CssCommand.End =>
          Option.some (runEndDispatch current_context st.pop_context)
      | CssCommand.EndKeepChar =>
          CssParser.parse_char_fuel fuel (runEndDispatch current_context st.pop_context)
      | CssCommand.Append =>
          Option.some (appendDispatch current_context st)
      | CssCommand.Begin =>
          Option.some (beginDispatch test_result.context
            (st.push_context test_result.context))
      | CssCommand.None =>
          Option.some (st.push_char char)

/-- `CssParser::parse_char` at the fuel bound `stack.length + 1`, which
always covers the recursion: every `EndKeepChar` step first pops the
stack and its end action (`CssValue::end`) pushes nothing. -/
def CssParser.parse_char (st : CssParser) : Option CssParser :=
  CssParser.parse_char_fuel (st.stack.length + 1) st

/-- `CssParser::new` (src/parse.rs:226-243): empty stack and buffer,
`current_char = '\0'`, fresh accumulators, then push `Root`. -/
def CssParser.new : CssParser :=
  CssParser.push_context
    { stack := [], char_buffer := [], current_char := Char.ofNat 0,
      root := CssRoot.new, ruleset := CssRuleSet.new, rule := CssRule.new }
    CssContext.Root

/-- `CssParser::parse` (src/parse.rs:321-328): set `current_char` and
run `parse_char` for each character in order.  The Rust function then
merely debug-prints `self.root` and returns `()`; the observable result
is the final parser state (in particular its `root`), or `none` if some
`parse_char` panicked. -/
def CssParser.parse (st : CssParser) (css : String) : Option CssParser :=
  css.data.foldlM (fun s c => CssParser.parse_char { s with current_char := c }) st

/-- Run the parser from `CssParser::new` over a whole input, as
`main` does (src/parse.rs:23-24). -/
def parseStr (css : String) : Option CssParser :=
  CssParser.parse CssParser.new css

/-!
## Single-character step lemmas

One lemma per reachable stack shape, computing `parse_char_fuel` in
closed form.  The `Value` lemma needs `fuel + 2`: its `EndKeepChar`
arm re-enters the decision step once with the same character.
-/

theorem parse_char_fuel_root (fuel : Nat) (st : CssParser)
    (h : st.stack = [CssContext.Root]) :
    CssParser.parse_char_fuel (fuel + 1) st =
      Option.some { st with stack := [CssContext.Selector, CssContext.Root],
                            char_buffer := st.char_buffer ++ [st.current_char] } := by
  simp +decide [CssParser.parse_char_fuel, h, headContext, contextTest, CssRoot.test,
    beginDispatch, CssSelector.begin, CssParser.push_context, CssParser.push_char]

theorem parse_char_fuel_selector (fuel : Nat) (st : CssParser)
    (h : st.stack = [CssContext.Selector, CssContext.Root]) :
    CssParser.parse_char_fuel (fuel + 1) st =
      Option.some (
        if st.current_char = lbrace then
          { st with stack := [CssContext.RuleSet, CssContext.Root],
                    char_buffer := [],
                    ruleset := { st.ruleset with
                      selectors := st.ruleset.selectors ++ [(trimChars st.char_buffer).asString] } }
        else if st.current_char = ',' then
          { st with char_buffer := [],
                    ruleset := { st.ruleset with
                      selectors := st.ruleset.selectors ++ [(trimChars st.char_buffer).asString] } }
        else
          { st with char_buffer := st.char_buffer ++ [st.current_char] }) := by
  by_cases h1 : st.current_char = lbrace
  · simp +decide [CssParser.parse_char_fuel, h, h1, headContext, contextTest, CssSelector.test,
      runEndDispatch, CssSelector.onEnd, CssParser.flush_char_buffer,
      CssParser.pop_context, CssParser.push_context]
  · by_cases h2 : st.current_char = ','
    · simp +decide [CssParser.parse_char_fuel, h, h1, h2, headContext, contextTest, CssSelector.test,
        appendDispatch, CssSelector.append, CssParser.flush_char_buffer]
    · simp +decide [CssParser.parse_char_fuel, h, h1, h2, headContext, contextTest, CssSelector.test,
        CssParser.push_char]

theorem parse_char_fuel_ruleset (fuel : Nat) (st : CssParser)
    (h : st.stack = [CssContext.RuleSet, CssContext.Root]) :
    CssParser.parse_char_fuel (fuel + 1) st =
      Option.some (
        if st.current_char = ' ' ∨ st.current_char = '\n' ∨
            st.current_char = '\r' ∨ st.current_char = '\t' then
          { st with char_buffer := st.char_buffer ++ [st.current_char] }
        else if st.current_char = rbrace then
          { st with stack := [CssContext.Root],
                    root := { rule_sets := st.root.rule_sets ++ [st.ruleset] },
                    ruleset := CssRuleSet.new }
        else
          { st with stack := [CssContext.Key, CssContext.RuleSet, CssContext.Root],
                    char_buffer := st.char_buffer ++ [st.current_char] }) := by
  by_cases h1 : st.current_char = ' ' ∨ st.current_char = '\n' ∨
      st.current_char = '\r' ∨ st.current_char = '\t'
  · simp +decide [CssParser.parse_char_fuel, h, h1, headContext, contextTest, CssRuleSet.test,
      CssParser.push_char]
  · by_cases h2 : st.current_char = rbrace
    · simp +decide [CssParser.parse_char_fuel, h, h1, h2, headContext, contextTest, CssRuleSet.test,
        runEndDispatch, CssRuleSet.onEnd, CssParser.pop_context]
    · simp +decide [CssParser.parse_char_fuel, h, h1, h2, headContext, contextTest, CssRuleSet.test,
        beginDispatch, CssSelector.begin, CssParser.push_context, CssParser.push_char]

theorem parse_char_fuel_key (fuel : Nat) (st : CssParser)
    (h : st.stack = [CssContext.Key, CssContext.RuleSet, CssContext.Root]) :
    CssParser.parse_char_fuel (fuel + 1) st =
      Option.some (
        if st.current_char = ':' then
          { st with stack := [CssContext.Value, CssContext.RuleSet, CssContext.Root],
                    char_buffer := [],
                    rule := { st.rule with key := (trimChars st.char_buffer).asString } }
        else
          { st with char_buffer := st.char_buffer ++ [st.current_char] }) := by
  by_cases h1 : st.current_char = ':'
  · simp +decide [CssParser.parse_char_fuel, h, h1, headContext, contextTest, CssKey.test,
      runEndDispatch, CssKey.onEnd, CssParser.flush_char_buffer,
      CssParser.pop_context, CssParser.push_context]
  · simp +decide [CssParser.parse_char_fuel, h, h1, headContext, contextTest, CssKey.test,
      CssParser.push_char]

theorem parse_char_fuel_value (fuel : Nat) (st : CssParser)
    (h : st.stack = [CssContext.Value, CssContext.RuleSet, CssContext.Root]) :
    CssParser.parse_char_fuel (fuel + 2) st =
      Option.some (
        if st.current_char = quoteD ∨ st.current_char = quoteS then
          { st with stack := [CssContext.String, CssContext.Value,
                              CssContext.RuleSet, CssContext.Root],
                    char_buffer := st.char_buffer ++ [st.current_char] }
        else if st.current_char = ';' then
          { st with stack := [CssContext.RuleSet, CssContext.Root],
                    char_buffer := [],
                    ruleset := { st.ruleset with rules := st.ruleset.rules ++
                      [{ key := st.rule.key,
                         value := (trimChars st.char_buffer).asString }] },
                    rule := CssRule.new }
        else if st.current_char = rbrace then
          { st with stack := [CssContext.Root],
                    char_buffer := [],
                    root := { rule_sets := st.root.rule_sets ++
                      [{ selectors := st.ruleset.selectors,
                         rules := st.ruleset.rules ++
                           [{ key := st.rule.key,
                              value := (trimChars st.char_buffer).asString }] }] },
                    ruleset := CssRuleSet.new,
                    rule := CssRule.new }
        else
          { st with char_buffer := st.char_buffer ++ [st.current_char] }) := by
  by_cases h1 : st.current_char = quoteD
  · simp +decide [CssParser.parse_char_fuel, h, h1, headContext, contextTest, CssValue.test,
      beginDispatch, CssSelector.begin, CssParser.push_context, CssParser.push_char]
  · by_cases h2 : st.current_char = quoteS
    · simp +decide [CssParser.parse_char_fuel, h, h1, h2, headContext, contextTest, CssValue.test,
        beginDispatch, CssSelector.begin, CssParser.push_context, CssParser.push_char]
    · by_cases h3 : st.current_char = ';'
      · simp +decide [CssParser.parse_char_fuel, h, h1, h2, h3, headContext, contextTest,
          CssValue.test, runEndDispatch, CssValue.onEnd, CssParser.flush_char_buffer,
          CssParser.pop_context]
      · by_cases h4 : st.current_char = rbrace
        · simp +decide [CssParser.parse_char_fuel, h, h1, h2, h3, h4, headContext, contextTest,
            CssValue.test, CssRuleSet.test, runEndDispatch, CssValue.onEnd, CssRuleSet.onEnd,
            CssParser.flush_char_buffer, CssParser.pop_context]
        · simp +decide [CssParser.parse_char_fuel, h, h1, h2, h3, h4, headContext, contextTest,
            CssValue.test, CssParser.push_char]

theorem parse_char_fuel_string (fuel : Nat) (st : CssParser)
    (h : st.stack = [CssContext.String, CssContext.Value,
                     CssContext.RuleSet, CssContext.Root]) :
    CssParser.parse_char_fuel (fuel + 1) st =
      Option.some (
        if st.current_char = quoteD ∨ st.current_char = quoteS then
          { st with stack := [CssContext.Value, CssContext.RuleSet, CssContext.Root],
                    char_buffer := st.char_buffer ++ [st.current_char] }
        else
          { st with char_buffer := st.char_buffer ++ [st.current_char] }) := by
  by_cases h1 : st.current_char = quoteD ∨ st.current_char = quoteS
  · simp +decide [CssParser.parse_char_fuel, h, h1, headContext, contextTest, CssString.test,
      runEndDispatch, CssString.onEnd, CssParser.pop_context, CssParser.push_char]
  · simp +decide [CssParser.parse_char_fuel, h, h1, headContext, contextTest, CssString.test,
      CssParser.push_char]

/-!
## `parse_char` on the reachable stack shapes

`parse_char` supplies `stack.length + 1` fuel, so each shape lemma
specialises the corresponding fuel lemma.
-/

theorem parse_char_root (st : CssParser) (h : st.stack = [CssContext.Root]) :
    CssParser.parse_char st =
      Option.some { st with stack := [CssContext.Selector, CssContext.Root],
                            char_buffer := st.char_buffer ++ [st.current_char] } := by
  simpa [CssParser.parse_char, h] using parse_char_fuel_root 1 st h

theorem parse_char_selector (st : CssParser)
    (h : st.stack = [CssContext.Selector, CssContext.Root]) :
    CssParser.parse_char st =
      Option.some (
        if st.current_char = lbrace then
          { st with stack := [CssContext.RuleSet, CssContext.Root],
                    char_buffer := [],
                    ruleset := { st.ruleset with
                      selectors := st.ruleset.selectors ++ [(trimChars st.char_buffer).asString] } }
        else if st.current_char = ',' then
          { st with char_buffer := [],
                    ruleset := { st.ruleset with
                      selectors := st.ruleset.selectors ++ [(trimChars st.char_buffer).asString] } }
        else
          { st with char_buffer := st.char_buffer ++ [st.current_char] }) := by
  simpa [CssParser.parse_char, h] using parse_char_fuel_selector 2 st h

theorem parse_char_ruleset (st : CssParser)
    (h : st.stack = [CssContext.RuleSet, CssContext.Root]) :
    CssParser.parse_char st =
      Option.some (
        if st.current_char = ' ' ∨ st.current_char = '\n' ∨
            st.current_char = '\r' ∨ st.current_char = '\t' then
          { st with char_buffer := st.char_buffer ++ [st.current_char] }
        else if st.current_char = rbrace then
          { st with stack := [CssContext.Root],
                    root := { rule_sets := st.root.rule_sets ++ [st.ruleset] },
                    ruleset := CssRuleSet.new }
        else
          { st with stack := [CssContext.Key, CssContext.RuleSet, CssContext.Root],
                    char_buffer := st.char_buffer ++ [st.current_char] }) := by
  simpa [CssParser.parse_char, h] using parse_char_fuel_ruleset 2 st h

theorem parse_char_key (st : CssParser)
    (h : st.stack = [CssContext.Key, CssContext.RuleSet, CssContext.Root]) :
    CssParser.parse_char st =
      Option.some (
        if st.current_char = ':' then
          { st with stack := [CssContext.Value, CssContext.RuleSet, CssContext.Root],
                    char_buffer := [],
                    rule := { st.rule with key := (trimChars st.char_buffer).asString } }
        else
          { st with char_buffer := st.char_buffer ++ [st.current_char] }) := by
  simpa [CssParser.parse_char, h] using parse_char_fuel_key 3 st h

theorem parse_char_value (st : CssParser)
    (h : st.stack = [CssContext.Value, CssContext.RuleSet, CssContext.Root]) :
    CssParser.parse_char st =
      Option.some (
        if st.current_char = quoteD ∨ st.current_char = quoteS then
          { st with stack := [CssContext.String, CssContext.Value,
                              CssContext.RuleSet, CssContext.Root],
                    char_buffer := st.char_buffer ++ [st.current_char] }
        else if st.current_char = ';' then
          { st with stack := [CssContext.RuleSet, CssContext.Root],
                    char_buffer := [],
                    ruleset := { st.ruleset with rules := st.ruleset.rules ++
                      [{ key := st.rule.key,
                         value := (trimChars st.char_buffer).asString }] },
                    rule := CssRule.new }
        else if st.current_char = rbrace then
          { st with stack := [CssContext.Root],
                    char_buffer := [],
                    root := { rule_sets := st.root.rule_sets ++
                      [{ selectors := st.ruleset.selectors,
                         rules := st.ruleset.rules ++
                           [{ key := st.rule.key,
                              value := (trimChars st.char_buffer).asString }] }] },
                    ruleset := CssRuleSet.new,
                    rule := CssRule.new }
        else
          { st with char_buffer := st.char_buffer ++ [st.current_char] }) := by
  simpa [CssParser.parse_char, h] using parse_char_fuel_value 2 st h

theorem parse_char_string (st : CssParser)
    (h : st.stack = [CssContext.String, CssContext.Value,
                     CssContext.RuleSet, CssContext.Root]) :
    CssParser.parse_char st =
      Option.some (
        if st.current_char = quoteD ∨ st.current_char = quoteS then
          { st with stack := [CssContext.Value, CssContext.RuleSet, CssContext.Root],
                    char_buffer := st.char_buffer ++ [st.current_char] }
        else
          { st with char_buffer := st.char_buffer ++ [st.current_char] }) := by
  simpa [CssParser.parse_char, h] using parse_char_fuel_string 4 st h

/-!
## Whitespace trimming

`trimChars` (the embedding of `str::trim`) is idempotent, so every
string produced by `flush_char_buffer` is already trimmed.
-/

theorem trimChars_eq_rdrop (l : List Char) :
    trimChars l = List.rdropWhile rustIsWhitespace (l.dropWhile rustIsWhitespace) := rfl

theorem head?_dropWhile_ws (l : List Char) (a : Char)
    (h : (l.dropWhile rustIsWhitespace).head? = Option.some a) :
    rustIsWhitespace a = false := by
  induction l with
  | nil => simp [List.dropWhile] at h
  | cons x xs ih =>
    by_cases hx : rustIsWhitespace x
    · rw [List.dropWhile_cons_of_pos hx] at h
      exact ih h
    · rw [List.dropWhile_cons_of_neg hx] at h
      simp only [List.head?_cons, Option.some.injEq] at h
      subst h
      simpa using hx

theorem dropWhile_eq_self_of_head?_ws (l : List Char)
    (h : ∀ a, l.head? = Option.some a → rustIsWhitespace a = false) :
    l.dropWhile rustIsWhitespace = l := by
  cases l with
  | nil => rfl
  | cons x xs =>
    have hx := h x rfl
    simp [List.dropWhile_cons_of_neg, hx]

theorem dropWhile_trimChars (l : List Char) :
    (trimChars l).dropWhile rustIsWhitespace = trimChars l := by
  apply dropWhile_eq_self_of_head?_ws
  intro a ha
  have hpre : trimChars l <+: l.dropWhile rustIsWhitespace := by
    rw [trimChars_eq_rdrop]
    exact List.rdropWhile_prefix _ _
  obtain ⟨t, ht⟩ := hpre
  apply head?_dropWhile_ws l a
  rw [← ht]
  cases hcase : trimChars l with
  | nil => rw [hcase] at ha; simp at ha
  | cons b bs =>
    rw [hcase] at ha
    simp only [List.head?_cons, Option.some.injEq] at ha
    simp [ha]

theorem trimChars_idem (l : List Char) :
    trimChars (trimChars l) = trimChars l := by
  rw [trimChars_eq_rdrop (trimChars l), dropWhile_trimChars,
    trimChars_eq_rdrop l]
  exact List.rdropWhile_idempotent _ _

/-!
## The reachability invariant

Reachable parser states have one of six stack shapes (`Root` is the
permanent floor); whenever the top of the stack is `Root` or `RuleSet`
the buffer holds only whitespace; and every string already stored in
the accumulators is trimmed.
-/

/-- The six stack shapes of reachable states; every shape is non-empty
and has `Root` as the bottom (floor) entry. -/
def StackShapes (s : List CssContext) : Prop :=
  s = [CssContext.Root] ∨
  s = [CssContext.Selector, CssContext.Root] ∨
  s = [CssContext.RuleSet, CssContext.Root] ∨
  s = [CssContext.Key, CssContext.RuleSet, CssContext.Root] ∨
  s = [CssContext.Value, CssContext.RuleSet, CssContext.Root] ∨
  s = [CssContext.String, CssContext.Value, CssContext.RuleSet, CssContext.Root]

/-- A string is trimmed if `str::trim` would leave it unchanged. -/
def isTrimmed (s : String) : Prop := trimChars s.data = s.data

def RuleTrimmed (r : CssRule) : Prop := isTrimmed r.key ∧ isTrimmed r.value

def RuleSetTrimmed (rs : CssRuleSet) : Prop :=
  (∀ s ∈ rs.selectors, isTrimmed s) ∧ (∀ r ∈ rs.rules, RuleTrimmed r)

def RootTrimmed (rt : CssRoot) : Prop := ∀ rs ∈ rt.rule_sets, RuleSetTrimmed rs

/-- Invariant maintained by every `parse_char` step from the initial
state. -/
def ParserInv (st : CssParser) : Prop :=
  StackShapes st.stack ∧
  ((st.stack = [CssContext.Root] ∨ st.stack = [CssContext.RuleSet, CssContext.Root]) →
    st.char_buffer.all rustIsWhitespace = true) ∧
  RootTrimmed st.root ∧ RuleSetTrimmed st.ruleset ∧ RuleTrimmed st.rule

theorem isTrimmed_flush (b : List Char) : isTrimmed (trimChars b).asString := by
  show trimChars (trimChars b).asString.data = (trimChars b).asString.data
  show trimChars (trimChars b) = trimChars b
  exact trimChars_idem b

theorem ruleTrimmed_new : RuleTrimmed CssRule.new := by
  exact ⟨rfl, rfl⟩

theorem ruleSetTrimmed_new : RuleSetTrimmed CssRuleSet.new := by
  constructor <;> simp [CssRuleSet.new]

/-!
## Invariant preservation along a run
-/


theorem ws_of_four (c : Char)
    (h : c = ' ' ∨ c = '\n' ∨ c = '\r' ∨ c = '\t') :
    rustIsWhitespace c = true := by
  rcases h with rfl | rfl | rfl | rfl <;> decide

theorem selectorsTrimmed_push (rs : CssRuleSet) (h : RuleSetTrimmed rs) (b : List Char) :
    RuleSetTrimmed { rs with selectors := rs.selectors ++ [(trimChars b).asString] } := by
  constructor
  · intro s hs
    rcases List.mem_append.mp hs with hmem | hmem
    · exact h.1 s hmem
    · simp only [List.mem_singleton] at hmem
      subst hmem
      exact isTrimmed_flush b
  · exact h.2

theorem rulesTrimmed_push (rs : CssRuleSet) (h : RuleSetTrimmed rs) (r : CssRule)
    (hr : RuleTrimmed r) : RuleSetTrimmed { rs with rules := rs.rules ++ [r] } := by
  constructor
  · exact h.1
  · intro x hx
    rcases List.mem_append.mp hx with hmem | hmem
    · exact h.2 x hmem
    · simp only [List.mem_singleton] at hmem
      subst hmem
      exact hr

theorem rootTrimmed_push (rt : CssRoot) (h : RootTrimmed rt) (rs : CssRuleSet)
    (hrs : RuleSetTrimmed rs) : RootTrimmed { rule_sets := rt.rule_sets ++ [rs] } := by
  intro x hx
  rcases List.mem_append.mp hx with hmem | hmem
  · exact h x hmem
  · simp only [List.mem_singleton] at hmem
    subst hmem
    exact hrs

theorem parserInv_step (st : CssParser) (c : Char) (h : ParserInv st) :
    ∃ st2, CssParser.parse_char { st with current_char := c } = Option.some st2 ∧
      ParserInv st2 := by
  obtain ⟨hshape, hbuf, hroot, hrs, hrule⟩ := h
  obtain ⟨stk, buf0, cc0, rt0, rs0, rl0⟩ := st
  simp only at hshape hbuf hroot hrs hrule
  rcases hshape with h1 | h1 | h1 | h1 | h1 | h1 <;> subst h1
  · -- stack = [Root]
    refine ⟨_, parse_char_root _ rfl, ?_⟩
    refine ⟨Or.inr (Or.inl rfl), ?_, hroot, hrs, hrule⟩
    intro hx
    simp at hx
  · -- stack = [Selector, Root]
    refine ⟨_, parse_char_selector _ rfl, ?_⟩
    split_ifs with hc1 hc2
    · exact ⟨Or.inr (Or.inr (Or.inl rfl)), by intro _; simp,
        hroot, selectorsTrimmed_push rs0 hrs buf0, hrule⟩
    · exact ⟨Or.inr (Or.inl rfl), by intro hx; simp at hx,
        hroot, selectorsTrimmed_push rs0 hrs buf0, hrule⟩
    · exact ⟨Or.inr (Or.inl rfl), by intro hx; simp at hx, hroot, hrs, hrule⟩
  · -- stack = [RuleSet, Root]
    refine ⟨_, parse_char_ruleset _ rfl, ?_⟩
    split_ifs with hc1 hc2
    · refine ⟨Or.inr (Or.inr (Or.inl rfl)), ?_, hroot, hrs, hrule⟩
      intro _
      simp only [List.all_append, List.all_cons, List.all_nil, Bool.and_true,
        Bool.and_eq_true]
      exact ⟨hbuf (Or.inr rfl), ws_of_four c (by simpa using hc1)⟩
    · exact ⟨Or.inl rfl, fun _ => hbuf (Or.inr rfl),
        rootTrimmed_push rt0 hroot rs0 hrs, ruleSetTrimmed_new, hrule⟩
    · exact ⟨Or.inr (Or.inr (Or.inr (Or.inl rfl))), by intro hx; simp at hx,
        hroot, hrs, hrule⟩
  · -- stack = [Key, RuleSet, Root]
    refine ⟨_, parse_char_key _ rfl, ?_⟩
    split_ifs with hc1
    · exact ⟨Or.inr (Or.inr (Or.inr (Or.inr (Or.inl rfl)))), by intro hx; simp at hx,
        hroot, hrs, ⟨isTrimmed_flush buf0, hrule.2⟩⟩
    · exact ⟨Or.inr (Or.inr (Or.inr (Or.inl rfl))), by intro hx; simp at hx,
        hroot, hrs, hrule⟩
  · -- stack = [Value, RuleSet, Root]
    refine ⟨_, parse_char_value _ rfl, ?_⟩
    split_ifs with hc1 hc2 hc3
    · exact ⟨Or.inr (Or.inr (Or.inr (Or.inr (Or.inr rfl)))), by intro hx; simp at hx,
        hroot, hrs, hrule⟩
    · exact ⟨Or.inr (Or.inr (Or.inl rfl)), by intro _; simp,
        hroot,
        rulesTrimmed_push rs0 hrs _ ⟨hrule.1, isTrimmed_flush buf0⟩,
        ruleTrimmed_new⟩
    · exact ⟨Or.inl rfl, by intro _; simp,
        rootTrimmed_push rt0 hroot _
          (rulesTrimmed_push rs0 hrs _ ⟨hrule.1, isTrimmed_flush buf0⟩),
        ruleSetTrimmed_new, ruleTrimmed_new⟩
    · exact ⟨Or.inr (Or.inr (Or.inr (Or.inr (Or.inl rfl)))), by intro hx; simp at hx,
        hroot, hrs, hrule⟩
  · -- stack = [String, Value, RuleSet, Root]
    refine ⟨_, parse_char_string _ rfl, ?_⟩
    split_ifs with hc1
    · exact ⟨Or.inr (Or.inr (Or.inr (Or.inr (Or.inl rfl)))), by intro hx; simp at hx,
        hroot, hrs, hrule⟩
    · exact ⟨Or.inr (Or.inr (Or.inr (Or.inr (Or.inr rfl)))), by intro hx; simp at hx,
        hroot, hrs, hrule⟩

theorem parserInv_new : ParserInv CssParser.new := by
  refine ⟨Or.inl rfl, fun _ => rfl, ?_, ?_, ⟨rfl, rfl⟩⟩
  · intro rs h
    simp [CssParser.new, CssParser.push_context, CssRoot.new] at h
  · constructor
    · intro s h
      simp [CssParser.new, CssParser.push_context, CssRuleSet.new] at h
    · intro r h
      simp [CssParser.new, CssParser.push_context, CssRuleSet.new] at h

theorem parserInv_run (l : List Char) :
    ∀ st : CssParser, ParserInv st →
      ∃ st2, l.foldlM (fun s c => CssParser.parse_char { s with current_char := c }) st =
          Option.some st2 ∧ ParserInv st2 := by
  induction l with
  | nil => exact fun st h => ⟨st, rfl, h⟩
  | cons c l ih =>
    intro st h
    obtain ⟨st1, hstep, hinv1⟩ := parserInv_step st c h
    obtain ⟨st2, hrun, hinv2⟩ := ih st1 hinv1
    refine ⟨st2, ?_, hinv2⟩
    rw [List.foldlM_cons, hstep]
    simpa using hrun

theorem parserInv_parseStr (css : String) :
    ∃ st, parseStr css = Option.some st ∧ ParserInv st := by
  have h := parserInv_run css.data CssParser.new parserInv_new
  simpa [parseStr, CssParser.parse] using h

/-!
## Claim theorems
-/


theorem parse_char_fuel_two (st : CssParser) (h : StackShapes st.stack) :
    CssParser.parse_char_fuel 2 st = CssParser.parse_char st ∧
    (CssParser.parse_char_fuel 2 st).isSome = true := by
  rcases h with h | h | h | h | h | h
  · have a := parse_char_fuel_root 1 st h
    have e : CssParser.parse_char_fuel 2 st = CssParser.parse_char st := by
      rw [parse_char_root st h]; exact a
    exact ⟨e, by rw [e, parse_char_root st h]; rfl⟩
  · have a := parse_char_fuel_selector 1 st h
    have e : CssParser.parse_char_fuel 2 st = CssParser.parse_char st := by
      rw [parse_char_selector st h]; exact a
    exact ⟨e, by rw [e, parse_char_selector st h]; rfl⟩
  · have a := parse_char_fuel_ruleset 1 st h
    have e : CssParser.parse_char_fuel 2 st = CssParser.parse_char st := by
      rw [parse_char_ruleset st h]; exact a
    exact ⟨e, by rw [e, parse_char_ruleset st h]; rfl⟩
  · have a := parse_char_fuel_key 1 st h
    have e : CssParser.parse_char_fuel 2 st = CssParser.parse_char st := by
      rw [parse_char_key st h]; exact a
    exact ⟨e, by rw [e, parse_char_key st h]; rfl⟩
  · have a := parse_char_fuel_value 0 st h
    have e : CssParser.parse_char_fuel 2 st = CssParser.parse_char st := by
      rw [parse_char_value st h]; exact a
    exact ⟨e, by rw [e, parse_char_value st h]; rfl⟩
  · have a := parse_char_fuel_string 1 st h
    have e : CssParser.parse_char_fuel 2 st = CssParser.parse_char st := by
      rw [parse_char_string st h]; exact a
    exact ⟨e, by rw [e, parse_char_string st h]; rfl⟩

/-- C1 counterexample: on `a{color:red` the parser finishes normally
(no panic, hence no failure of any kind in the code), the document is
empty (silently truncated) and the `Value`/`RuleSet` contexts are still
open on the stack; no parse error is surfaced. -/
theorem c1_counterexample_silent_truncation :
    (parseStr "a\x7bcolor:red").map CssParser.root =
      Option.some { rule_sets := [] } ∧
    (parseStr "a\x7bcolor:red").map CssParser.stack =
      Option.some [CssContext.Value, CssContext.RuleSet, CssContext.Root] ∧
    (parseStr "a\x7bcolor:red").isSome = true := by
  decide

/-- C1 amended: `parse` has no error channel and performs no
end-of-input check; it succeeds on every input, and on `a{color:red`
it leaves the unterminated constructs on the stack and the truncated
(here empty) document as the result. -/
theorem c1_amended_no_error_channel :
    (∀ css : String, ∃ st, parseStr css = Option.some st) ∧
    parseStr "a\x7bcolor:red" = Option.some
      { stack := [CssContext.Value, CssContext.RuleSet, CssContext.Root],
        char_buffer := ['r', 'e', 'd'], current_char := 'd',
        root := { rule_sets := [] },
        ruleset := { selectors := ["a"], rules := [] },
        rule := { key := "color", value := "" } } := by
  constructor
  · intro css
    obtain ⟨st, hrun, -⟩ := parserInv_parseStr css
    exact ⟨st, hrun⟩
  · decide

/-- C2 counterexample: in `a{content:"x;y"}` the stored value is
`"x;y"` INCLUDING both delimiting quote characters (first and last
character of the stored value are the double quote). -/
theorem c2_counterexample_quotes_included :
    (parseStr "a\x7bcontent:\x22x;y\x22\x7d").map (fun st => st.root.rule_sets) =
      Option.some [{ selectors := ["a"],
                     rules := [{ key := "content",
                                 value := List.asString [quoteD, 'x', ';', 'y', quoteD] }] }] ∧
    (List.asString [quoteD, 'x', ';', 'y', quoteD]).data.head? = Option.some quoteD ∧
    (List.asString [quoteD, 'x', ';', 'y', quoteD]).data.getLast? = Option.some quoteD := by
  decide

/-- C2 amended: both delimiting quote characters are stored: entering
the String context appends the opening quote to the buffer (the Begin
dispatch calls `CssSelector::begin`), and leaving it appends the
closing quote (`CssString::end`). -/
theorem c2_amended_quotes_stored (st : CssParser) (c : Char)
    (hq : c = quoteD ∨ c = quoteS) :
    (st.stack = [CssContext.Value, CssContext.RuleSet, CssContext.Root] →
      CssParser.parse_char { st with current_char := c } =
        Option.some { st with current_char := c,
                              stack := [CssContext.String, CssContext.Value,
                                        CssContext.RuleSet, CssContext.Root],
                              char_buffer := st.char_buffer ++ [c] }) ∧
    (st.stack = [CssContext.String, CssContext.Value,
                 CssContext.RuleSet, CssContext.Root] →
      CssParser.parse_char { st with current_char := c } =
        Option.some { st with current_char := c,
                              stack := [CssContext.Value, CssContext.RuleSet,
                                        CssContext.Root],
                              char_buffer := st.char_buffer ++ [c] }) := by
  constructor
  · intro h
    rw [parse_char_value _ (by simpa using h), if_pos (by simpa using hq)]
  · intro h
    rw [parse_char_string _ (by simpa using h), if_pos (by simpa using hq)]

theorem c2_amended_quotes_stored_witness :
    CssParser.parse_char
      { stack := [CssContext.Value, CssContext.RuleSet, CssContext.Root],
        char_buffer := [], current_char := quoteD, root := { rule_sets := [] },
        ruleset := { selectors := ["a"], rules := [] },
        rule := { key := "k", value := "" } } =
      Option.some
        { stack := [CssContext.String, CssContext.Value,
                    CssContext.RuleSet, CssContext.Root],
          char_buffer := [quoteD], current_char := quoteD,
          root := { rule_sets := [] },
          ruleset := { selectors := ["a"], rules := [] },
          rule := { key := "k", value := "" } } := by
  have h := c2_amended_quotes_stored
    { stack := [CssContext.Value, CssContext.RuleSet, CssContext.Root],
      char_buffer := [], current_char := quoteD, root := { rule_sets := [] },
      ruleset := { selectors := ["a"], rules := [] },
      rule := { key := "k", value := "" } } quoteD (Or.inl rfl)
  exact h.1 rfl

/-- C3 counterexample: after `a{k:'x` a single-quoted string is open
(String on top of the stack); feeding the NON-matching double quote
pops the String context (and appends that quote to the buffer), so the
other quote character terminates the string instead of being ordinary
content. -/
theorem c3_counterexample_nonmatching_quote_ends_string :
    (parseStr "a\x7bk:\x27x").map CssParser.stack =
      Option.some [CssContext.String, CssContext.Value,
                   CssContext.RuleSet, CssContext.Root] ∧
    (parseStr "a\x7bk:\x27x\x22").map CssParser.stack =
      Option.some [CssContext.Value, CssContext.RuleSet, CssContext.Root] ∧
    (parseStr "a\x7bk:\x27x\x22").map CssParser.char_buffer =
      Option.some [quoteS, 'x', quoteD] := by
  decide

/-- C3 amended: the String context records nothing about which quote
opened it, and `CssString::test` treats EITHER quote character as the
terminator; every other character (including the non-matching quote
when it is the opener) is ordinary accumulated content. -/
theorem c3_amended_either_quote_ends_string (st : CssParser)
    (h : st.stack = [CssContext.String, CssContext.Value,
                     CssContext.RuleSet, CssContext.Root]) (c : Char) :
    (c = quoteD ∨ c = quoteS →
      CssParser.parse_char { st with current_char := c } =
        Option.some { st with current_char := c,
                              stack := [CssContext.Value, CssContext.RuleSet,
                                        CssContext.Root],
                              char_buffer := st.char_buffer ++ [c] }) ∧
    (¬(c = quoteD ∨ c = quoteS) →
      CssParser.parse_char { st with current_char := c } =
        Option.some { st with current_char := c,
                              char_buffer := st.char_buffer ++ [c] }) := by
  constructor
  · intro hc
    rw [parse_char_string _ (by simpa using h), if_pos (by simpa using hc)]
  · intro hc
    rw [parse_char_string _ (by simpa using h), if_neg (by simpa using hc)]

theorem c3_amended_either_quote_ends_string_witness :
    CssParser.parse_char
      { stack := [CssContext.String, CssContext.Value,
                  CssContext.RuleSet, CssContext.Root],
        char_buffer := [quoteS, 'x'], current_char := quoteD,
        root := { rule_sets := [] },
        ruleset := { selectors := ["a"], rules := [] },
        rule := { key := "k", value := "" } } =
      Option.some
        { stack := [CssContext.Value, CssContext.RuleSet, CssContext.Root],
          char_buffer := [quoteS, 'x', quoteD], current_char := quoteD,
          root := { rule_sets := [] },
          ruleset := { selectors := ["a"], rules := [] },
          rule := { key := "k", value := "" } } := by
  have h := c3_amended_either_quote_ends_string
    { stack := [CssContext.String, CssContext.Value,
                CssContext.RuleSet, CssContext.Root],
      char_buffer := [quoteS, 'x'], current_char := quoteD,
      root := { rule_sets := [] },
      ruleset := { selectors := ["a"], rules := [] },
      rule := { key := "k", value := "" } } rfl quoteD
  exact h.1 (Or.inl rfl)

/-- C4: parsing `a{color:red}` yields exactly one rule set with the
single rule `color: red`, moved into the document, with the rule-set
accumulator reset and the stack back at the floor.  The second
conjunct shows the single `}` step takes the state reached after
`a{color:red` to that final state; the third shows one decision step
is NOT enough for that `}` (it must be reprocessed, via `EndKeepChar`,
against the enclosing RuleSet context), so the same character closes
both the value and the rule set without being consumed twice. -/
theorem c4_single_brace_closes_value_and_ruleset :
    parseStr "a\x7bcolor:red\x7d" = Option.some
      { stack := [CssContext.Root], char_buffer := [], current_char := rbrace,
        root := { rule_sets := [{ selectors := ["a"],
                                  rules := [{ key := "color", value := "red" }] }] },
        ruleset := CssRuleSet.new, rule := CssRule.new } ∧
    (parseStr "a\x7bcolor:red").bind
        (fun st => CssParser.parse_char { st with current_char := rbrace }) =
      parseStr "a\x7bcolor:red\x7d" ∧
    (parseStr "a\x7bcolor:red").bind
        (fun st => CssParser.parse_char_fuel 1 { st with current_char := rbrace }) =
      Option.none := by
  refine ⟨by decide, by decide, by decide⟩

/-- C5: in `a{content:"x;y"}` the `;` inside the quoted string is
literal content, not a declaration terminator: the result is exactly
one rule set with exactly one rule, key `content`, and a value that
contains the text `x;y` (the stored value is `"x;y"` with the quote
characters included). -/
theorem c5_embedded_semicolon_is_literal_content :
    (parseStr "a\x7bcontent:\x22x;y\x22\x7d").map (fun st => st.root.rule_sets) =
      Option.some [{ selectors := ["a"],
                     rules := [{ key := "content",
                                 value := List.asString [quoteD, 'x', ';', 'y', quoteD] }] }] ∧
    List.IsInfix ['x', ';', 'y'] (List.asString [quoteD, 'x', ';', 'y', quoteD]).data := by
  constructor
  · decide
  · exact ⟨[quoteD], [quoteD], rfl⟩

/-- C6: for every input, the whole run of `parse` succeeds (the
`Option.none` modelling the empty-stack `panic!` branch, or fuel
exhaustion, is never produced at any point of the run — every
intermediate classification state is the final state of the run on a
prefix, and all inputs are quantified here), and the final stack is
non-empty with `Root` as its permanent bottom (floor) entry. -/
theorem c6_stack_never_empty_no_panic (css : String) :
    ∃ st, parseStr css = Option.some st ∧
      st.stack ≠ [] ∧ st.stack.getLast? = Option.some CssContext.Root := by
  obtain ⟨st, hrun, hinv⟩ := parserInv_parseStr css
  obtain ⟨hshape, -, -, -, -⟩ := hinv
  refine ⟨st, hrun, ?_⟩
  rcases hshape with h | h | h | h | h | h <;> rw [h] <;> exact ⟨by decide, by decide⟩

theorem c6_stack_never_empty_no_panic_witness :
    ∃ st, parseStr "a\x7bcolor:red\x7d" = Option.some st ∧
      st.stack ≠ [] ∧ st.stack.getLast? = Option.some CssContext.Root :=
  c6_stack_never_empty_no_panic "a\x7bcolor:red\x7d"

/-- C7 counterexample: Root IS revisited.  After `a{}` (first
character long since classified) the stack is exactly `[Root]` again,
so the next character `b` of `a{}b` is classified with Root as the
active top-of-stack context, which Begins a fresh Selector with `b`
in the buffer. -/
theorem c7_counterexample_root_revisited :
    (parseStr "a\x7b\x7d").map CssParser.stack =
      Option.some [CssContext.Root] ∧
    (parseStr "a\x7b\x7db").map CssParser.stack =
      Option.some [CssContext.Selector, CssContext.Root] ∧
    (parseStr "a\x7b\x7db").map CssParser.char_buffer = Option.some ['b'] := by
  decide

/-- C7 amended: Root always performs the unconditional transition
Begin → Selector, but it is not a one-shot state: WHENEVER the stack
is back to just `[Root]` (which happens after every rule set closes),
the next character is again classified by Root and begins a new
Selector. -/
theorem c7_amended_root_begin_selector (st : CssParser)
    (h : st.stack = [CssContext.Root]) (c : Char) :
    CssParser.parse_char { st with current_char := c } =
      Option.some { st with current_char := c,
                            stack := [CssContext.Selector, CssContext.Root],
                            char_buffer := st.char_buffer ++ [c] } := by
  exact parse_char_root _ (by simpa using h)

theorem c7_amended_root_begin_selector_witness :
    CssParser.parse_char
      { stack := [CssContext.Root], char_buffer := [], current_char := 'b',
        root := { rule_sets := [{ selectors := ["a"], rules := [] }] },
        ruleset := CssRuleSet.new, rule := CssRule.new } =
      Option.some
        { stack := [CssContext.Selector, CssContext.Root],
          char_buffer := ['b'], current_char := 'b',
          root := { rule_sets := [{ selectors := ["a"], rules := [] }] },
          ruleset := CssRuleSet.new, rule := CssRule.new } := by
  have h := c7_amended_root_begin_selector
    { stack := [CssContext.Root], char_buffer := [], current_char := 'b',
      root := { rule_sets := [{ selectors := ["a"], rules := [] }] },
      ruleset := CssRuleSet.new, rule := CssRule.new } rfl 'b'
  exact h

/-- C8: from every reachable parser state, processing one character
needs at most 2 entries of the per-character decision step (the
initial entry plus at most one `EndKeepChar` reprocessing): fuel 2
already computes `parse_char` (which is given `stack.length + 1`
fuel), and the step always completes.  The recursion depth is thus
bounded in every reachable state, independent of input structure. -/
theorem c8_endkeepchar_bounded (css : String) (st : CssParser) (c : Char)
    (h : parseStr css = Option.some st) :
    CssParser.parse_char_fuel 2 { st with current_char := c } =
      CssParser.parse_char { st with current_char := c } ∧
    (CssParser.parse_char_fuel 2 { st with current_char := c }).isSome = true := by
  obtain ⟨st2, hrun, hinv⟩ := parserInv_parseStr css
  rw [h] at hrun
  obtain rfl : st = st2 := Option.some.inj hrun
  obtain ⟨hshape, -, -, -, -⟩ := hinv
  exact parse_char_fuel_two { st with current_char := c } hshape

theorem c8_endkeepchar_bounded_witness :
    CssParser.parse_char_fuel 2
      { stack := [CssContext.Value, CssContext.RuleSet, CssContext.Root],
        char_buffer := ['v'], current_char := rbrace,
        root := { rule_sets := [] }, ruleset := { selectors := ["a"], rules := [] },
        rule := { key := "k", value := "" } } =
      CssParser.parse_char
        { stack := [CssContext.Value, CssContext.RuleSet, CssContext.Root],
          char_buffer := ['v'], current_char := rbrace,
          root := { rule_sets := [] }, ruleset := { selectors := ["a"], rules := [] },
          rule := { key := "k", value := "" } } ∧
    (CssParser.parse_char_fuel 2
      { stack := [CssContext.Value, CssContext.RuleSet, CssContext.Root],
        char_buffer := ['v'], current_char := rbrace,
        root := { rule_sets := [] }, ruleset := { selectors := ["a"], rules := [] },
        rule := { key := "k", value := "" } }).isSome = true := by
  have h := c8_endkeepchar_bounded "a\x7bk:v"
    { stack := [CssContext.Value, CssContext.RuleSet, CssContext.Root],
      char_buffer := ['v'], current_char := 'v',
      root := { rule_sets := [] }, ruleset := { selectors := ["a"], rules := [] },
      rule := { key := "k", value := "" } } rbrace (by decide)
  exact h

/-- C9: comma-separated selectors `a, b, c { … }` produce one rule set
with exactly the three selectors `["a", "b", "c"]`, in order, each
with surrounding whitespace trimmed (shown with a declaration body and
with an empty body). -/
theorem c9_comma_separated_selectors :
    (parseStr "a, b, c \x7b x:y \x7d").map (fun st => st.root.rule_sets) =
      Option.some [{ selectors := ["a", "b", "c"],
                     rules := [{ key := "x", value := "y" }] }] ∧
    (parseStr "a, b, c \x7b\x7d").map (fun st => st.root.rule_sets) =
      Option.some [{ selectors := ["a", "b", "c"], rules := [] }] := by
  exact ⟨by decide, by decide⟩

/-- C10: whitespace seen while RuleSet is the active context is
appended to the shared buffer (not discarded); on every reachable
state whose top is `Root` or `RuleSet` (the states from which a
Begin command starts a new Selector or Key token) the buffer holds
whitespace only; every selector, key and value stored in the final
document is trimmed (so the absorbed whitespace, sitting in the
leading part of the next token buffer, never reaches the document);
and every flush returns a trimmed string and clears the buffer. -/
theorem c10_ruleset_whitespace_never_stored (css : String) (st : CssParser)
    (h : parseStr css = Option.some st) :
    (∀ c : Char, c = ' ' ∨ c = '\n' ∨ c = '\r' ∨ c = '\t' →
      st.stack = [CssContext.RuleSet, CssContext.Root] →
      CssParser.parse_char { st with current_char := c } =
        Option.some { st with current_char := c,
                              char_buffer := st.char_buffer ++ [c] }) ∧
    ((st.stack = [CssContext.Root] ∨
      st.stack = [CssContext.RuleSet, CssContext.Root]) →
      st.char_buffer.all rustIsWhitespace = true) ∧
    (∀ rs ∈ st.root.rule_sets,
      (∀ s ∈ rs.selectors, trimChars s.data = s.data) ∧
      ∀ r ∈ rs.rules, trimChars r.key.data = r.key.data ∧
        trimChars r.value.data = r.value.data) ∧
    (∀ st2 : CssParser,
      trimChars (st2.flush_char_buffer).2.data = (st2.flush_char_buffer).2.data ∧
      (st2.flush_char_buffer).1.char_buffer = []) := by
  obtain ⟨st2, hrun, hinv⟩ := parserInv_parseStr css
  rw [h] at hrun
  obtain rfl : st = st2 := Option.some.inj hrun
  obtain ⟨-, hbuf, hroot, -, -⟩ := hinv
  refine ⟨?_, hbuf, ?_, ?_⟩
  · intro c hc hstk
    rw [parse_char_ruleset _ (by simpa using hstk), if_pos (by simpa using hc)]
  · intro rs hrs
    exact ⟨(hroot rs hrs).1, fun r hr =>
      ⟨((hroot rs hrs).2 r hr).1, ((hroot rs hrs).2 r hr).2⟩⟩
  · intro st2
    exact ⟨isTrimmed_flush st2.char_buffer, rfl⟩

theorem c10_ruleset_whitespace_never_stored_witness :
    ((∀ c : Char, c = ' ' ∨ c = '\n' ∨ c = '\r' ∨ c = '\t' →
      [CssContext.RuleSet, CssContext.Root] = [CssContext.RuleSet, CssContext.Root] →
      CssParser.parse_char
        { stack := [CssContext.RuleSet, CssContext.Root], char_buffer := [' '],
          current_char := c, root := { rule_sets := [] },
          ruleset := { selectors := ["a"], rules := [] },
          rule := CssRule.new } =
        Option.some
          { stack := [CssContext.RuleSet, CssContext.Root],
            char_buffer := [' '] ++ [c], current_char := c,
            root := { rule_sets := [] },
            ruleset := { selectors := ["a"], rules := [] },
            rule := CssRule.new }) ∧
    (([CssContext.RuleSet, CssContext.Root] = [CssContext.Root] ∨
      ([CssContext.RuleSet, CssContext.Root] : List CssContext) =
        [CssContext.RuleSet, CssContext.Root]) →
      [' '].all rustIsWhitespace = true) ∧
    (∀ rs ∈ ({ rule_sets := [] } : CssRoot).rule_sets,
      (∀ s ∈ rs.selectors, trimChars s.data = s.data) ∧
      ∀ r ∈ rs.rules, trimChars r.key.data = r.key.data ∧
        trimChars r.value.data = r.value.data) ∧
    (∀ st2 : CssParser,
      trimChars (st2.flush_char_buffer).2.data = (st2.flush_char_buffer).2.data ∧
      (st2.flush_char_buffer).1.char_buffer = [])) := by
  have h := c10_ruleset_whitespace_never_stored "a\x7b "
    { stack := [CssContext.RuleSet, CssContext.Root], char_buffer := [' '],
      current_char := ' ', root := { rule_sets := [] },
      ruleset := { selectors := ["a"], rules := [] },
      rule := CssRule.new } (by decide)
  exact h
